import Mathlib

set_option maxRecDepth 100000
set_option maxHeartbeats 2000000

/-!
Verification of the `network-interceptor-fix.py` patch script.

The script reads the text of `network-interceptor.js`, tests whether the
literal block `old_sensor_logic` occurs in it, and if so replaces it (via
Python `str.replace`, which substitutes every non-overlapping occurrence,
scanning left to right) with `new_sensor_logic`, writes the patched text
back, and prints a four-line success message; otherwise it performs no
write and prints a two-line failure message.  A missing or unreadable file
makes the initial `open` raise, which the script does not handle.

The embedding below models file text as `List Char`.  The two string
literals are transcribed byte-for-byte from the script.  `pyReplace`,
`pySplit` and `pyCount` model Python `str.replace`, `str.split` and
`str.count` for a nonempty pattern (the script pattern is a fixed nonempty
literal; Python edge behaviour on an empty pattern is out of scope).
`runPatcher` models one run of the script on given file content, recording
whether a write happened, the resulting file content, and the printed
lines; `runScript` additionally models the unhandled read failure, with
the possibly-missing file as an `Option` and the raised error as `Except`.
-/

def oldLit : String :=
  "  // Look for sensor keys (slabwgt, slabvwc, etc.)\n  if (nodeData.length === 0) \x7b\n    console.log(\x27⚠️  [NETWORK] Node data array is empty\x27);\n    return null;\n  \x7d\n  \n  const firstEntry = nodeData[0];\n  const sensorKeys = Object.keys(firstEntry).filter(k => \n    k.toLowerCase().includes(\x27slab\x27) || \n    k.toLowerCase().includes(\x27wgt\x27) || \n    k.toLowerCase().includes(\x27vwc\x27)\n  );"

def newLit : String :=
  "  // Look for sensor keys (slabwgt, slabvwc, etc.)\n  if (nodeData.length === 0) \x7b\n    console.log(\x27⚠️  [NETWORK] Node data array is empty\x27);\n    return null;\n  \x7d\n  \n  // Find first non-empty entry (skip empty objects at the start)\n  let firstEntry = null;\n  for (let i = 0; i < Math.min(10, nodeData.length); i++) \x7b\n    if (nodeData[i] && Object.keys(nodeData[i]).length > 1) \x7b // More than just \"timestamp\"\n      firstEntry = nodeData[i];\n      if (i > 0) \x7b\n        console.log(\x60   → Skipped $\x7bi\x7d empty entries, using entry [$\x7bi\x7d]\x60);\n      \x7d\n      break;\n    \x7d\n  \x7d\n  \n  if (!firstEntry) \x7b\n    console.log(\x27⚠️  [NETWORK] All entries are empty\x27);\n    return null;\n  \x7d\n  \n  // Look for sensor keys with flexible pattern matching (handles suffixes like \"_1\", \"_2\")\n  const sensorKeys = Object.keys(firstEntry).filter(k => \x7b\n    const lower = k.toLowerCase();\n    return (lower.includes(\x27slabwgt\x27) || \n            lower.includes(\x27slabvwc\x27) || \n            lower.includes(\x27calslabvwc\x27)) && \n           k !== \x27timestamp\x27;\n  \x7d);"

/-- The Pattern: the `old_sensor_logic` literal of the script, as characters. -/
def old_sensor_logic : List Char := oldLit.data

/-- The Replacement: the `new_sensor_logic` literal of the script, as characters. -/
def new_sensor_logic : List Char := newLit.data

/-- The four lines printed by the success branch of the script. -/
def successLines : List String :=
  ["✅ FIXED: Sensor key parser now handles:",
   "   1. Empty objects at the start of array",
   "   2. Dynamic suffixes (slabwgt_1, slabwgt_2, etc.)",
   "   3. Both slabwgt and calslabvwc keys"]

/-- The two lines printed by the failure branch of the script. -/
def failureLines : List String :=
  ["❌ Could not find target section",
   "   Will need manual inspection"]

/-- `leadsWith pat s` tests whether `pat` is a prefix of `s` (exact character
equality, as Python string comparison). -/
def leadsWith : List Char → List Char → Bool
  | [], _ => true
  | _ :: _, [] => false
  | a :: as, b :: bs => a == b && leadsWith as bs

/-- `occursIn pat s` models Python `pat in s`: `pat` occurs as an exact
contiguous substring of `s` (at any position, including the end for the
empty pattern). -/
def occursIn (pat : List Char) : List Char → Bool
  | [] => leadsWith pat []
  | c :: rest => leadsWith pat (c :: rest) || occursIn pat rest

/-- Number of positions of `s` (end position included) at which `pat`
starts as an exact substring.  `countPos pat s = 1` says that `pat` occurs
in `s` at exactly one position. -/
def countPos (pat : List Char) : List Char → Nat
  | [] => if leadsWith pat [] then 1 else 0
  | c :: rest => (if leadsWith pat (c :: rest) then 1 else 0) + countPos pat rest

/-- Python `s.replace(pat, repl)` for a nonempty `pat`: scan left to right,
replace each (non-overlapping) occurrence of `pat`, and continue after the
inserted replacement. -/
def pyReplace (pat repl : List Char) (s : List Char) : List Char :=
  match s with
  | [] => []
  | c :: rest =>
    if leadsWith pat (c :: rest) ∧ pat ≠ [] then
      repl ++ pyReplace pat repl (rest.drop (pat.length - 1))
    else
      c :: pyReplace pat repl rest
termination_by s.length
decreasing_by
  · simp only [List.length_cons, List.length_drop]
    omega
  · simp only [List.length_cons]
    omega

/-- Replacement of only the first occurrence of `pat`.  This is not what
Python `str.replace` does; it is the operation named by the specification
sentence "the first (and only) occurrence" and is compared against
`pyReplace`. -/
def replaceFirst (pat repl : List Char) (s : List Char) : List Char :=
  match s with
  | [] => []
  | c :: rest =>
    if leadsWith pat (c :: rest) then
      repl ++ (c :: rest).drop pat.length
    else
      c :: replaceFirst pat repl rest

/-- Python `s.split(pat)` for a nonempty `pat`: the maximal pattern-free
segments of `s` between the left-to-right non-overlapping occurrences of
`pat`.  Python guarantees `s.replace(a, b) == b.join(s.split(a))`. -/
def pySplit (pat : List Char) (s : List Char) : List (List Char) :=
  match s with
  | [] => [[]]
  | c :: rest =>
    if leadsWith pat (c :: rest) ∧ pat ≠ [] then
      [] :: pySplit pat (rest.drop (pat.length - 1))
    else
      match pySplit pat rest with
      | [] => [[c]]
      | h :: t => (c :: h) :: t
termination_by s.length
decreasing_by
  · simp only [List.length_cons, List.length_drop]
    omega
  · simp only [List.length_cons]
    omega

/-- Python `s.count(pat)` for a nonempty `pat`: the number of
non-overlapping occurrences of `pat` in `s`, scanning left to right. -/
def pyCount (pat : List Char) (s : List Char) : Nat :=
  match s with
  | [] => 0
  | c :: rest =>
    if leadsWith pat (c :: rest) ∧ pat ≠ [] then
      pyCount pat (rest.drop (pat.length - 1)) + 1
    else
      pyCount pat rest
termination_by s.length
decreasing_by
  · simp only [List.length_cons, List.length_drop]
    omega
  · simp only [List.length_cons]
    omega

/-- Join a list of segments, inserting `sep` between consecutive segments
(Python `sep.join`). -/
def joinSep (sep : List Char) : List (List Char) → List Char
  | [] => []
  | [a] => a
  | a :: b :: t => a ++ sep ++ joinSep sep (b :: t)

/-- Checks that no nonempty proper tail of `pat` is a prefix of `repl`. -/
def tailsChk (pat repl : List Char) : Bool :=
  (List.range pat.length).all fun k =>
    k == 0 || !(decide (pat.drop k = repl.take (pat.length - k)))

/-- Checks that no nonempty proper head of `pat` is a suffix of `repl`. -/
def headsChk (pat repl : List Char) : Bool :=
  (List.range pat.length).all fun k =>
    k == 0 || !(decide (pat.take k = repl.drop (repl.length - k)))

/-- Result of one run of the patcher on readable file content: whether the
file was rewritten, the file content afterwards, and the printed lines. -/
structure PatchResult where
  written : Bool
  fileContent : List Char
  consoleLines : List String
deriving Repr

/-- One run of the script body on the content read from the target file:
the `if old_sensor_logic in content` branch of the script. -/
def runPatcher (content : List Char) : PatchResult :=
  if occursIn old_sensor_logic content then
    { written := true
      fileContent := pyReplace old_sensor_logic new_sensor_logic content
      consoleLines := successLines }
  else
    { written := false
      fileContent := content
      consoleLines := failureLines }

/-- The unhandled fatal condition of the script: the initial
`open('network-interceptor.js', 'r')` raising because the file is missing
or unreadable. -/
inductive ReadError where
  | fileNotFoundOrUnreadable
deriving Repr

/-- Reading the target file: `none` models a missing or unreadable file, in
which case the read raises. -/
def readTargetFile (file : Option (List Char)) : Except ReadError (List Char) :=
  match file with
  | none => Except.error ReadError.fileNotFoundOrUnreadable
  | some content => Except.ok content

/-- The whole script: read the target file (propagating a read failure
unhandled) and run the patcher on its content. -/
def runScript (file : Option (List Char)) : Except ReadError PatchResult :=
  match readTargetFile file with
  | Except.error e => Except.error e
  | Except.ok content => Except.ok (runPatcher content)

theorem pyReplace_nil (pat repl : List Char) : pyReplace pat repl [] = [] := by
  simp [pyReplace]

theorem pyReplace_cons (pat repl : List Char) (c : Char) (rest : List Char) :
    pyReplace pat repl (c :: rest) =
      if leadsWith pat (c :: rest) ∧ pat ≠ [] then
        repl ++ pyReplace pat repl (rest.drop (pat.length - 1))
      else
        c :: pyReplace pat repl rest := by
  rw [pyReplace]

theorem pySplit_nil (pat : List Char) : pySplit pat [] = [[]] := by
  simp [pySplit]

theorem pySplit_cons (pat : List Char) (c : Char) (rest : List Char) :
    pySplit pat (c :: rest) =
      if leadsWith pat (c :: rest) ∧ pat ≠ [] then
        [] :: pySplit pat (rest.drop (pat.length - 1))
      else
        match pySplit pat rest with
        | [] => [[c]]
        | h :: t => (c :: h) :: t := by
  rw [pySplit]

theorem pyCount_nil (pat : List Char) : pyCount pat [] = 0 := by
  simp [pyCount]

theorem pyCount_cons (pat : List Char) (c : Char) (rest : List Char) :
    pyCount pat (c :: rest) =
      if leadsWith pat (c :: rest) ∧ pat ≠ [] then
        pyCount pat (rest.drop (pat.length - 1)) + 1
      else
        pyCount pat rest := by
  rw [pyCount]

theorem replaceFirst_nil (pat repl : List Char) : replaceFirst pat repl [] = [] := rfl

theorem replaceFirst_cons (pat repl : List Char) (c : Char) (rest : List Char) :
    replaceFirst pat repl (c :: rest) =
      if leadsWith pat (c :: rest) then repl ++ (c :: rest).drop pat.length
      else c :: replaceFirst pat repl rest := rfl

theorem occursIn_cons_eq (pat : List Char) (c : Char) (rest : List Char) :
    occursIn pat (c :: rest) = (leadsWith pat (c :: rest) || occursIn pat rest) := rfl

theorem countPos_cons (pat : List Char) (c : Char) (rest : List Char) :
    countPos pat (c :: rest) =
      (if leadsWith pat (c :: rest) then 1 else 0) + countPos pat rest := rfl

theorem joinSep_single (sep a : List Char) : joinSep sep [a] = a := rfl

theorem joinSep_cons2 (sep : List Char) (a b : List Char) (t : List (List Char)) :
    joinSep sep (a :: b :: t) = a ++ sep ++ joinSep sep (b :: t) := rfl

theorem leadsWith_iff {l₁ l₂ : List Char} :
    leadsWith l₁ l₂ = true ↔ ∃ t, l₁ ++ t = l₂ := by
  induction l₁ generalizing l₂ with
  | nil => simp [leadsWith]
  | cons a as ih =>
    cases l₂ with
    | nil => simp [leadsWith]
    | cons b bs =>
      show (a == b && leadsWith as bs) = true ↔ _
      rw [Bool.and_eq_true, beq_iff_eq, ih]
      constructor
      · rintro ⟨rfl, t, rfl⟩
        exact ⟨t, rfl⟩
      · rintro ⟨t, ht⟩
        rw [List.cons_append] at ht
        injection ht with h1 h2
        exact ⟨h1, t, h2⟩

theorem leads_extend {pat z : List Char} (h : leadsWith pat z = true) (w : List Char) :
    leadsWith pat (z ++ w) = true := by
  obtain ⟨t, rfl⟩ := leadsWith_iff.mp h
  exact leadsWith_iff.mpr ⟨t ++ w, by rw [List.append_assoc]⟩

theorem leadsWith_append_self (pat x : List Char) : leadsWith pat (pat ++ x) = true :=
  leadsWith_iff.mpr ⟨x, rfl⟩

theorem leadsWith_self (pat : List Char) : leadsWith pat pat = true :=
  leadsWith_iff.mpr ⟨[], List.append_nil pat⟩

theorem pfx_shorten {pat z y : List Char} (h : leadsWith pat (z ++ y) = true)
    (hl : pat.length ≤ z.length) : leadsWith pat z = true := by
  induction pat generalizing z with
  | nil => cases z <;> rfl
  | cons a as ih =>
    cases z with
    | nil => simp at hl
    | cons b bs =>
      rw [List.cons_append] at h
      have h2 : (a == b && leadsWith as (bs ++ y)) = true := h
      rw [Bool.and_eq_true] at h2
      have hl2 : as.length ≤ bs.length := by
        simp only [List.length_cons] at hl
        omega
      show (a == b && leadsWith as bs) = true
      rw [Bool.and_eq_true]
      exact ⟨h2.1, ih h2.2 hl2⟩

theorem pfx_split {pat z y : List Char} (h : leadsWith pat (z ++ y) = true)
    (hl : z.length ≤ pat.length) :
    pat.take z.length = z ∧ leadsWith (pat.drop z.length) y = true := by
  induction z generalizing pat with
  | nil => exact ⟨rfl, by simpa using h⟩
  | cons b bs ih =>
    cases pat with
    | nil => simp at hl
    | cons a as =>
      rw [List.cons_append] at h
      have h2 : (a == b && leadsWith as (bs ++ y)) = true := h
      rw [Bool.and_eq_true, beq_iff_eq] at h2
      obtain ⟨rfl, h3⟩ := h2
      have hl2 : bs.length ≤ as.length := by
        simp only [List.length_cons] at hl
        omega
      obtain ⟨ht, hd⟩ := ih h3 hl2
      constructor
      · simp only [List.length_cons, List.take_succ_cons, ht]
      · simpa only [List.length_cons, List.drop_succ_cons] using hd

theorem occursIn_of_leads {pat s : List Char} (h : leadsWith pat s = true) :
    occursIn pat s = true := by
  cases s with
  | nil => exact h
  | cons c rest =>
    rw [occursIn_cons_eq, h, Bool.true_or]

theorem occursIn_tail {pat : List Char} (c : Char) {rest : List Char}
    (h : occursIn pat rest = true) : occursIn pat (c :: rest) = true := by
  rw [occursIn_cons_eq, h, Bool.or_true]

theorem occursIn_cons_elim {pat : List Char} {c : Char} {rest : List Char}
    (h : occursIn pat (c :: rest) = true) :
    leadsWith pat (c :: rest) = true ∨ occursIn pat rest = true := by
  rw [occursIn_cons_eq] at h
  exact Bool.or_eq_true_iff.mp h

theorem occursIn_nil_elim {pat : List Char} (hne : pat ≠ []) :
    occursIn pat [] = false := by
  cases pat with
  | nil => exact absurd rfl hne
  | cons a as => rfl

theorem occursIn_append_cases (pat x y : List Char)
    (h : occursIn pat (x ++ y) = true) :
    occursIn pat x = true ∨ occursIn pat y = true ∨
      ∃ k, 1 ≤ k ∧ k < pat.length ∧ (∃ u, u ++ pat.take k = x) ∧
        leadsWith (pat.drop k) y = true := by
  induction x with
  | nil => exact Or.inr (Or.inl (by simpa using h))
  | cons c x ih =>
    rw [List.cons_append] at h
    rcases occursIn_cons_elim h with h1 | h2
    · rw [← List.cons_append] at h1
      by_cases hl : pat.length ≤ (c :: x).length
      · exact Or.inl (occursIn_of_leads (pfx_shorten h1 hl))
      · push_neg at hl
        obtain ⟨ht, hd⟩ := pfx_split h1 (le_of_lt hl)
        exact Or.inr (Or.inr ⟨(c :: x).length, by simp, hl, ⟨[], by simpa using ht⟩, hd⟩)
    · rcases ih h2 with hx | hy | ⟨k, hk1, hk2, ⟨u, hu⟩, hld⟩
      · exact Or.inl (occursIn_tail c hx)
      · exact Or.inr (Or.inl hy)
      · exact Or.inr (Or.inr ⟨k, hk1, hk2, ⟨c :: u, by rw [List.cons_append, hu]⟩, hld⟩)

theorem pyReplace_no_occ {pat repl s : List Char} (h : occursIn pat s = false) :
    pyReplace pat repl s = s := by
  induction s with
  | nil => exact pyReplace_nil pat repl
  | cons c rest ih =>
    rw [occursIn_cons_eq, Bool.or_eq_false_iff] at h
    rw [pyReplace_cons, if_neg (fun hc => by rw [h.1] at hc; exact Bool.false_ne_true hc.1)]
    rw [ih h.2]

theorem leads_drop_eq {pat : List Char} (hne : pat ≠ []) {c : Char} {rest t : List Char}
    (ht : pat ++ t = c :: rest) : rest.drop (pat.length - 1) = t := by
  cases pat with
  | nil => exact absurd rfl hne
  | cons p ps =>
    rw [List.cons_append] at ht
    injection ht with h1 h2
    simp only [List.length_cons, Nat.add_sub_cancel]
    rw [← h2, List.drop_left]

theorem pyReplace_first_decomp (pat repl : List Char) (hne : pat ≠ []) (s : List Char)
    (h : occursIn pat s = true) :
    ∃ a b, s = a ++ pat ++ b ∧
      pyReplace pat repl s = a ++ repl ++ pyReplace pat repl b := by
  induction s with
  | nil => rw [occursIn_nil_elim hne] at h; exact absurd h (by simp)
  | cons c rest ih =>
    by_cases hp : leadsWith pat (c :: rest) = true
    · obtain ⟨t, ht⟩ := leadsWith_iff.mp hp
      refine ⟨[], t, by simp [← ht], ?_⟩
      rw [pyReplace_cons, if_pos ⟨hp, hne⟩, leads_drop_eq hne ht]
      simp
    · rcases occursIn_cons_elim h with h1 | h3
      · exact absurd h1 hp
      · obtain ⟨a, b, hab, heq⟩ := ih h3
        refine ⟨c :: a, b, by simp [hab], ?_⟩
        rw [pyReplace_cons, if_neg (fun hc => hp hc.1), heq]
        simp

theorem occursIn_pyReplace_eq_false (pat repl : List Char) (hne : pat ≠ [])
    (hno : occursIn pat repl = false)
    (hTail : ∀ k, 1 ≤ k → k < pat.length → leadsWith (pat.drop k) repl = false)
    (hHead : ∀ k, 1 ≤ k → k < pat.length → ¬ ∃ u, u ++ pat.take k = repl)
    (hlen : pat.length ≤ repl.length) (s : List Char) :
    occursIn pat (pyReplace pat repl s) = false := by
  cases s with
  | nil => rw [pyReplace_nil]; exact occursIn_nil_elim hne
  | cons c rest =>
    by_cases hp : leadsWith pat (c :: rest) = true
    · rw [pyReplace_cons, if_pos ⟨hp, hne⟩]
      have hR := occursIn_pyReplace_eq_false pat repl hne hno hTail hHead hlen
        (rest.drop (pat.length - 1))
      cases hocc : occursIn pat
          (repl ++ pyReplace pat repl (rest.drop (pat.length - 1))) with
      | false => rfl
      | true =>
        exfalso
        rcases occursIn_append_cases pat _ _ hocc with h1 | h2 | ⟨k, hk1, hk2, hu, _⟩
        · rw [hno] at h1; exact Bool.false_ne_true h1
        · rw [hR] at h2; exact Bool.false_ne_true h2
        · exact hHead k hk1 hk2 hu
    · rw [pyReplace_cons, if_neg (fun hc => hp hc.1)]
      have hR := occursIn_pyReplace_eq_false pat repl hne hno hTail hHead hlen rest
      cases hocc : occursIn pat (c :: pyReplace pat repl rest) with
      | false => rfl
      | true =>
        exfalso
        rcases occursIn_cons_elim hocc with h1 | h2
        · cases hrest : occursIn pat rest with
          | false =>
            rw [pyReplace_no_occ hrest] at h1
            exact hp h1
          | true =>
            obtain ⟨a, b, hab, heq⟩ := pyReplace_first_decomp pat repl hne rest hrest
            rw [heq] at h1
            have h1b : leadsWith pat ((c :: a) ++ (repl ++ pyReplace pat repl b)) = true := by
              simpa [List.cons_append, List.append_assoc] using h1
            by_cases hl : pat.length ≤ (c :: a).length
            · have hz := pfx_shorten h1b hl
              have hx : leadsWith pat ((c :: a) ++ (pat ++ b)) = true := leads_extend hz _
              have hcr : (c :: a) ++ (pat ++ b) = c :: rest := by
                rw [hab]; simp [List.cons_append, List.append_assoc]
              rw [hcr] at hx
              exact hp hx
            · push_neg at hl
              obtain ⟨_, hd⟩ := pfx_split h1b (le_of_lt hl)
              have hshort : leadsWith (pat.drop ((c :: a).length)) repl = true := by
                apply pfx_shorten hd
                rw [List.length_drop]
                simp only [List.length_cons] at hl ⊢
                omega
              have hfalse := hTail (c :: a).length (by simp) hl
              rw [hfalse] at hshort
              exact Bool.false_ne_true hshort
        · rw [hR] at h2; exact Bool.false_ne_true h2
termination_by s.length
decreasing_by all_goals (simp only [List.length_cons, List.length_drop]; omega)

theorem countPos_zero_iff {pat s : List Char} :
    countPos pat s = 0 ↔ occursIn pat s = false := by
  induction s with
  | nil =>
    show (if leadsWith pat [] then 1 else 0) = 0 ↔ leadsWith pat [] = false
    cases h : leadsWith pat [] <;> simp [h]
  | cons c rest ih =>
    rw [countPos_cons, occursIn_cons_eq]
    cases h : leadsWith pat (c :: rest) <;> simp [h, ih]

theorem countPos_tail_le (pat : List Char) (c : Char) (rest : List Char) :
    countPos pat rest ≤ countPos pat (c :: rest) := by
  rw [countPos_cons]
  exact Nat.le_add_left _ _

theorem countPos_drop_le (pat : List Char) (s : List Char) :
    ∀ k : Nat, countPos pat (s.drop k) ≤ countPos pat s := by
  induction s with
  | nil => intro k; simp [List.drop_nil]
  | cons c rest ih =>
    intro k
    cases k with
    | zero => simp
    | succ k =>
      rw [List.drop_succ_cons]
      exact le_trans (ih k) (countPos_tail_le pat c rest)

theorem pyReplace_eq_replaceFirst {pat repl : List Char} (hne : pat ≠ [])
    {s : List Char} (h : countPos pat s = 1) :
    pyReplace pat repl s = replaceFirst pat repl s := by
  induction s with
  | nil => rw [pyReplace_nil, replaceFirst_nil]
  | cons c rest ih =>
    by_cases hp : leadsWith pat (c :: rest) = true
    · rw [pyReplace_cons, if_pos ⟨hp, hne⟩, replaceFirst_cons, if_pos hp]
      have hrest : countPos pat rest = 0 := by
        rw [countPos_cons, hp] at h
        simp at h
        omega
      have hdrop0 : countPos pat (rest.drop (pat.length - 1)) = 0 :=
        Nat.le_zero.mp (hrest ▸ countPos_drop_le pat rest (pat.length - 1))
      rw [pyReplace_no_occ (countPos_zero_iff.mp hdrop0)]
      congr 1
      cases pat with
      | nil => exact absurd rfl hne
      | cons p ps =>
        simp only [List.length_cons, Nat.add_sub_cancel, List.drop_succ_cons]
    · have hp2 : leadsWith pat (c :: rest) = false := by
        cases hb : leadsWith pat (c :: rest) with
        | true => exact absurd hb hp
        | false => rfl
      have h2 : countPos pat rest = 1 := by
        rw [countPos_cons, hp2] at h
        simpa using h
      rw [pyReplace_cons, if_neg (fun hc => hp hc.1), replaceFirst_cons, if_neg hp, ih h2]

theorem countPos_pos_occurs {pat s : List Char} (h : countPos pat s ≠ 0) :
    occursIn pat s = true := by
  cases hb : occursIn pat s with
  | true => rfl
  | false => exact absurd (countPos_zero_iff.mpr hb) h

theorem pySplit_ne_nil (pat s : List Char) : pySplit pat s ≠ [] := by
  cases s with
  | nil => rw [pySplit_nil]; simp
  | cons c rest =>
    rw [pySplit_cons]
    by_cases hc : leadsWith pat (c :: rest) = true ∧ pat ≠ []
    · rw [if_pos hc]; simp
    · rw [if_neg hc]
      cases pySplit pat rest with
      | nil => simp
      | cons h t => simp

theorem pySplit_head_leads (pat : List Char) (s : List Char) :
    ∀ h t, pySplit pat s = h :: t → ∃ u, h ++ u = s := by
  induction s with
  | nil =>
    intro h t hS
    rw [pySplit_nil] at hS
    injection hS with h1 h2
    exact ⟨[], by rw [← h1]; rfl⟩
  | cons c rest ih =>
    intro h t hS
    rw [pySplit_cons] at hS
    by_cases hc : leadsWith pat (c :: rest) = true ∧ pat ≠ []
    · rw [if_pos hc] at hS
      injection hS with h1 h2
      exact ⟨c :: rest, by rw [← h1]; rfl⟩
    · rw [if_neg hc] at hS
      obtain ⟨h0, t0, hSr⟩ := List.exists_cons_of_ne_nil (pySplit_ne_nil pat rest)
      rw [hSr] at hS
      have hS2 : (c :: h0) :: t0 = h :: t := hS
      injection hS2 with h1 h2
      obtain ⟨u, hu⟩ := ih h0 t0 hSr
      exact ⟨u, by rw [← h1, List.cons_append, hu]⟩

theorem pySplit_parts_free (pat : List Char) (hne : pat ≠ []) (s : List Char) :
    ∀ part ∈ pySplit pat s, occursIn pat part = false := by
  cases s with
  | nil =>
    intro part hmem
    rw [pySplit_nil] at hmem
    simp at hmem
    rw [hmem]
    exact occursIn_nil_elim hne
  | cons c rest =>
    intro part hmem
    rw [pySplit_cons] at hmem
    by_cases hp : leadsWith pat (c :: rest) = true
    · rw [if_pos ⟨hp, hne⟩] at hmem
      rcases List.mem_cons.mp hmem with h1 | h2
      · rw [h1]; exact occursIn_nil_elim hne
      · exact pySplit_parts_free pat hne (rest.drop (pat.length - 1)) part h2
    · rw [if_neg (fun hc => hp hc.1)] at hmem
      obtain ⟨h0, t0, hSr⟩ := List.exists_cons_of_ne_nil (pySplit_ne_nil pat rest)
      rw [hSr] at hmem
      have hmem2 : part ∈ (c :: h0) :: t0 := hmem
      rcases List.mem_cons.mp hmem2 with h1 | h2
      · rw [h1]
        cases hocc : occursIn pat (c :: h0) with
        | false => rfl
        | true =>
          exfalso
          rcases occursIn_cons_elim hocc with hlw | ho
          · obtain ⟨u, hu⟩ := pySplit_head_leads pat rest h0 t0 hSr
            have hx : leadsWith pat ((c :: h0) ++ u) = true := leads_extend hlw u
            rw [List.cons_append, hu] at hx
            exact hp hx
          · have hfree := pySplit_parts_free pat hne rest h0
              (by rw [hSr]; exact List.mem_cons_self h0 t0)
            rw [hfree] at ho
            exact Bool.false_ne_true ho
      · exact pySplit_parts_free pat hne rest part
          (by rw [hSr]; exact List.mem_cons_of_mem h0 h2)
termination_by s.length
decreasing_by all_goals (simp only [List.length_cons, List.length_drop]; omega)

theorem pyReplace_eq_joinSep (pat repl : List Char) (hne : pat ≠ []) (s : List Char) :
    pyReplace pat repl s = joinSep repl (pySplit pat s) := by
  cases s with
  | nil => rw [pyReplace_nil, pySplit_nil]; rfl
  | cons c rest =>
    by_cases hp : leadsWith pat (c :: rest) = true
    · rw [pyReplace_cons, if_pos ⟨hp, hne⟩, pySplit_cons, if_pos ⟨hp, hne⟩]
      obtain ⟨h0, t0, hSr⟩ :=
        List.exists_cons_of_ne_nil (pySplit_ne_nil pat (rest.drop (pat.length - 1)))
      rw [pyReplace_eq_joinSep pat repl hne (rest.drop (pat.length - 1)), hSr, joinSep_cons2]
      simp
    · rw [pyReplace_cons, if_neg (fun hc => hp hc.1), pySplit_cons,
        if_neg (fun hc => hp hc.1)]
      obtain ⟨h0, t0, hSr⟩ := List.exists_cons_of_ne_nil (pySplit_ne_nil pat rest)
      rw [pyReplace_eq_joinSep pat repl hne rest, hSr]
      show c :: joinSep repl (h0 :: t0) = joinSep repl ((c :: h0) :: t0)
      cases t0 with
      | nil => rfl
      | cons b t1 =>
        rw [joinSep_cons2, joinSep_cons2]
        simp [List.cons_append, List.append_assoc]
termination_by s.length
decreasing_by all_goals (simp only [List.length_cons, List.length_drop]; omega)

theorem joinSep_pySplit (pat : List Char) (hne : pat ≠ []) (s : List Char) :
    joinSep pat (pySplit pat s) = s := by
  cases s with
  | nil => rw [pySplit_nil]; rfl
  | cons c rest =>
    by_cases hp : leadsWith pat (c :: rest) = true
    · rw [pySplit_cons, if_pos ⟨hp, hne⟩]
      obtain ⟨h0, t0, hSr⟩ :=
        List.exists_cons_of_ne_nil (pySplit_ne_nil pat (rest.drop (pat.length - 1)))
      have hrec := joinSep_pySplit pat hne (rest.drop (pat.length - 1))
      rw [hSr] at hrec ⊢
      rw [joinSep_cons2, hrec]
      obtain ⟨t, ht⟩ := leadsWith_iff.mp hp
      rw [leads_drop_eq hne ht, List.nil_append, ht]
    · rw [pySplit_cons, if_neg (fun hc => hp hc.1)]
      obtain ⟨h0, t0, hSr⟩ := List.exists_cons_of_ne_nil (pySplit_ne_nil pat rest)
      have hrec := joinSep_pySplit pat hne rest
      rw [hSr] at hrec ⊢
      show joinSep pat ((c :: h0) :: t0) = c :: rest
      cases t0 with
      | nil =>
        have hh : h0 = rest := hrec
        rw [joinSep_single, hh]
      | cons b t1 =>
        rw [joinSep_cons2] at hrec ⊢
        rw [← hrec]
        simp [List.cons_append, List.append_assoc]
termination_by s.length
decreasing_by all_goals (simp only [List.length_cons, List.length_drop]; omega)

theorem pySplit_length (pat : List Char) (hne : pat ≠ []) (s : List Char) :
    (pySplit pat s).length = pyCount pat s + 1 := by
  cases s with
  | nil => rw [pySplit_nil, pyCount_nil]; rfl
  | cons c rest =>
    by_cases hp : leadsWith pat (c :: rest) = true
    · rw [pySplit_cons, if_pos ⟨hp, hne⟩, pyCount_cons, if_pos ⟨hp, hne⟩]
      rw [List.length_cons, pySplit_length pat hne (rest.drop (pat.length - 1))]
    · rw [pySplit_cons, if_neg (fun hc => hp hc.1), pyCount_cons, if_neg (fun hc => hp hc.1)]
      obtain ⟨h0, t0, hSr⟩ := List.exists_cons_of_ne_nil (pySplit_ne_nil pat rest)
      have hrec := pySplit_length pat hne rest
      rw [hSr] at hrec ⊢
      show ((c :: h0) :: t0).length = pyCount pat rest + 1
      rw [List.length_cons] at hrec ⊢
      exact hrec
termination_by s.length
decreasing_by all_goals (simp only [List.length_cons, List.length_drop]; omega)

theorem pyCount_pos {pat : List Char} (hne : pat ≠ []) {s : List Char}
    (h : occursIn pat s = true) : 1 ≤ pyCount pat s := by
  induction s with
  | nil => rw [occursIn_nil_elim hne] at h; exact absurd h (by simp)
  | cons c rest ih =>
    by_cases hp : leadsWith pat (c :: rest) = true
    · rw [pyCount_cons, if_pos ⟨hp, hne⟩]; omega
    · rcases occursIn_cons_elim h with h1 | h2
      · exact absurd h1 hp
      · rw [pyCount_cons, if_neg (fun hc => hp hc.1)]; exact ih h2

theorem tailsChk_spec {pat repl : List Char} (h : tailsChk pat repl = true) :
    ∀ k, 1 ≤ k → k < pat.length → leadsWith (pat.drop k) repl = false := by
  intro k hk1 hk2
  have hall := List.all_eq_true.mp h k (List.mem_range.mpr hk2)
  rcases Bool.or_eq_true_iff.mp hall with h0 | hneq
  · have : k = 0 := by simpa using h0
    omega
  · simp only [Bool.not_eq_true', decide_eq_false_iff_not] at hneq
    cases hb : leadsWith (pat.drop k) repl with
    | false => rfl
    | true =>
      exfalso
      obtain ⟨t, ht⟩ := leadsWith_iff.mp hb
      apply hneq
      rw [← ht]
      have hl : (pat.drop k).length = pat.length - k := List.length_drop k pat
      rw [← hl, List.take_left]

theorem headsChk_spec {pat repl : List Char} (h : headsChk pat repl = true) :
    ∀ k, 1 ≤ k → k < pat.length → ¬ ∃ u, u ++ pat.take k = repl := by
  rintro k hk1 hk2 ⟨u, hu⟩
  have hall := List.all_eq_true.mp h k (List.mem_range.mpr hk2)
  rcases Bool.or_eq_true_iff.mp hall with h0 | hneq
  · have : k = 0 := by simpa using h0
    omega
  · simp only [Bool.not_eq_true', decide_eq_false_iff_not] at hneq
    apply hneq
    have hlk : (pat.take k).length = k := by
      rw [List.length_take]
      omega
    rw [← hu, List.length_append, hlk]
    have hcanc : u.length + k - k = u.length := by omega
    rw [hcanc, List.drop_left]

theorem pyReplace_pat_append (pat repl x : List Char) (hne : pat ≠ []) :
    pyReplace pat repl (pat ++ x) = repl ++ pyReplace pat repl x := by
  cases hpat : pat with
  | nil => exact absurd hpat hne
  | cons p ps =>
    rw [List.cons_append, pyReplace_cons,
      if_pos ⟨by rw [← List.cons_append, ← hpat]; exact leadsWith_append_self pat x, by simp⟩]
    congr 1
    have hx : (p :: ps) ++ x = p :: (ps ++ x) := List.cons_append p ps x
    have := @leads_drop_eq (p :: ps) (hpat ▸ hne) p (ps ++ x) x (by rw [hx])
    rw [this]

theorem pyReplace_self (pat repl : List Char) (hne : pat ≠ []) :
    pyReplace pat repl pat = repl := by
  have h := pyReplace_pat_append pat repl [] hne
  rw [List.append_nil, pyReplace_nil, List.append_nil] at h
  exact h

theorem replaceFirst_pat_append (pat repl x : List Char) (hne : pat ≠ []) :
    replaceFirst pat repl (pat ++ x) = repl ++ x := by
  cases hpat : pat with
  | nil => exact absurd hpat hne
  | cons p ps =>
    rw [List.cons_append, replaceFirst_cons,
      if_pos (by rw [← List.cons_append, ← hpat]; exact leadsWith_append_self pat x)]
    congr 1
    rw [← List.cons_append, ← hpat]
    exact List.drop_left pat x

theorem runPatcher_found {s : List Char} (h : occursIn old_sensor_logic s = true) :
    runPatcher s =
      { written := true
        fileContent := pyReplace old_sensor_logic new_sensor_logic s
        consoleLines := successLines } := by
  unfold runPatcher
  rw [if_pos h]

theorem runPatcher_not_found {s : List Char} (h : occursIn old_sensor_logic s = false) :
    runPatcher s = { written := false, fileContent := s, consoleLines := failureLines } := by
  unfold runPatcher
  rw [if_neg (by simp [h])]

theorem runPatcher_content (s : List Char) :
    (runPatcher s).fileContent = pyReplace old_sensor_logic new_sensor_logic s := by
  cases hb : occursIn old_sensor_logic s with
  | true => rw [runPatcher_found hb]
  | false => rw [runPatcher_not_found hb, pyReplace_no_occ hb]

theorem old_ne_nil : old_sensor_logic ≠ [] := by decide

theorem old_ne_new : old_sensor_logic ≠ new_sensor_logic := by decide

theorem old_not_in_new : occursIn old_sensor_logic new_sensor_logic = false := by decide

theorem old_len_le_new : old_sensor_logic.length ≤ new_sensor_logic.length := by decide

theorem old_new_tails : tailsChk old_sensor_logic new_sensor_logic = true := by decide

theorem old_new_heads : headsChk old_sensor_logic new_sensor_logic = true := by decide

theorem no_pattern_after_patch (s : List Char) :
    occursIn old_sensor_logic (pyReplace old_sensor_logic new_sensor_logic s) = false :=
  occursIn_pyReplace_eq_false old_sensor_logic new_sensor_logic old_ne_nil old_not_in_new
    (tailsChk_spec old_new_tails) (headsChk_spec old_new_heads) old_len_le_new s

/-- Claim C1: on every SourceText in which the Pattern occurs at exactly one
position, the Patcher rewrites the file to the SourceText with that one
occurrence replaced by the Replacement, and reports success. -/
theorem patch_unique_occurrence (s : List Char)
    (h : countPos old_sensor_logic s = 1) :
    (runPatcher s).written = true ∧
    (runPatcher s).fileContent = replaceFirst old_sensor_logic new_sensor_logic s ∧
    (runPatcher s).consoleLines = successLines := by
  have hocc : occursIn old_sensor_logic s = true := countPos_pos_occurs (by omega)
  rw [runPatcher_found hocc]
  exact ⟨rfl, pyReplace_eq_replaceFirst old_ne_nil h, rfl⟩

theorem patch_unique_occurrence_app :
    (runPatcher old_sensor_logic).written = true ∧
    (runPatcher old_sensor_logic).fileContent =
      replaceFirst old_sensor_logic new_sensor_logic old_sensor_logic ∧
    (runPatcher old_sensor_logic).consoleLines = successLines :=
  patch_unique_occurrence old_sensor_logic (by decide)

/-- Claim C2: on every SourceText in which the Pattern does not occur, the
Patcher performs no write, leaves the content unchanged, and reports
failure with the could-not-locate message. -/
theorem patch_pattern_absent (s : List Char)
    (h : occursIn old_sensor_logic s = false) :
    (runPatcher s).written = false ∧
    (runPatcher s).fileContent = s ∧
    (runPatcher s).consoleLines = failureLines := by
  rw [runPatcher_not_found h]
  exact ⟨rfl, rfl, rfl⟩

theorem patch_pattern_absent_app :
    (runPatcher []).written = false ∧
    (runPatcher []).fileContent = [] ∧
    (runPatcher []).consoleLines = failureLines :=
  patch_pattern_absent [] (by decide)

/-- Claim C3, counterexample: on the SourceText made of two copies of the
Pattern, the Patcher output differs from replacing only the first
occurrence — Python `str.replace` replaces both. -/
theorem patch_first_only_refuted :
    occursIn old_sensor_logic (old_sensor_logic ++ old_sensor_logic) = true ∧
    (runPatcher (old_sensor_logic ++ old_sensor_logic)).fileContent ≠
      replaceFirst old_sensor_logic new_sensor_logic
        (old_sensor_logic ++ old_sensor_logic) := by
  refine ⟨occursIn_of_leads (leadsWith_append_self _ _), ?_⟩
  rw [runPatcher_content, pyReplace_pat_append _ _ _ old_ne_nil,
    pyReplace_self _ _ old_ne_nil, replaceFirst_pat_append _ _ _ old_ne_nil]
  intro heq
  exact old_ne_new (List.append_cancel_left heq).symm

/-- Claim C3 as amended: on every SourceText containing the Pattern, the
Patcher produces the Python replace-all result — every left-to-right
non-overlapping occurrence of the Pattern is replaced, not only the first,
and no occurrence of the Pattern remains in the output. -/
theorem patch_replaces_every_occurrence (s : List Char)
    (h : occursIn old_sensor_logic s = true) :
    (runPatcher s).fileContent = pyReplace old_sensor_logic new_sensor_logic s ∧
    occursIn old_sensor_logic ((runPatcher s).fileContent) = false := by
  refine ⟨runPatcher_content s, ?_⟩
  rw [runPatcher_content s]
  exact no_pattern_after_patch s

theorem patch_replaces_every_occurrence_app :
    (runPatcher old_sensor_logic).fileContent =
      pyReplace old_sensor_logic new_sensor_logic old_sensor_logic ∧
    occursIn old_sensor_logic ((runPatcher old_sensor_logic).fileContent) = false :=
  patch_replaces_every_occurrence old_sensor_logic (by decide)

/-- Claim C4: after a successful run of the Patcher, a second run on the
patched content reports failure (the Pattern no longer occurs) and leaves
the content unchanged. -/
theorem patch_idempotent (s : List Char)
    (h : (runPatcher s).written = true) :
    (runPatcher ((runPatcher s).fileContent)).written = false ∧
    (runPatcher ((runPatcher s).fileContent)).fileContent = (runPatcher s).fileContent ∧
    (runPatcher ((runPatcher s).fileContent)).consoleLines = failureLines := by
  have hno : occursIn old_sensor_logic ((runPatcher s).fileContent) = false := by
    rw [runPatcher_content s]
    exact no_pattern_after_patch s
  rw [runPatcher_not_found hno]
  exact ⟨rfl, rfl, rfl⟩

theorem patch_idempotent_app :
    (runPatcher ((runPatcher old_sensor_logic).fileContent)).written = false ∧
    (runPatcher ((runPatcher old_sensor_logic).fileContent)).fileContent =
      (runPatcher old_sensor_logic).fileContent ∧
    (runPatcher ((runPatcher old_sensor_logic).fileContent)).consoleLines = failureLines :=
  patch_idempotent old_sensor_logic (by decide)

/-- Claim C5: the run is a no-op outside exact Pattern matches.  Every
SourceText splits into Pattern-free segments joined by the Pattern, and
the output is exactly the same segments joined by the Replacement;
matching is exact substring equality. -/
theorem patch_frame_invariant (s : List Char) :
    joinSep old_sensor_logic (pySplit old_sensor_logic s) = s ∧
    (runPatcher s).fileContent = joinSep new_sensor_logic (pySplit old_sensor_logic s) ∧
    ∀ part ∈ pySplit old_sensor_logic s, occursIn old_sensor_logic part = false := by
  refine ⟨joinSep_pySplit _ old_ne_nil s, ?_, pySplit_parts_free _ old_ne_nil s⟩
  rw [runPatcher_content s]
  exact pyReplace_eq_joinSep _ _ old_ne_nil s

theorem patch_frame_invariant_app :
    joinSep old_sensor_logic (pySplit old_sensor_logic []) = [] :=
  (patch_frame_invariant []).1

/-- Claim C6: a missing or unreadable target file is an unhandled fatal
read error that propagates (no write, no message); on any readable
content the run completes normally in exactly the success or the failure
branch. -/
theorem script_error_conditions :
    runScript none = Except.error ReadError.fileNotFoundOrUnreadable ∧
    ∀ c : List Char, runScript (some c) = Except.ok (runPatcher c) ∧
      ((runPatcher c).written = true ∧ (runPatcher c).consoleLines = successLines ∨
        (runPatcher c).written = false ∧ (runPatcher c).consoleLines = failureLines) := by
  refine ⟨rfl, fun c => ⟨rfl, ?_⟩⟩
  cases hb : occursIn old_sensor_logic c with
  | true => exact Or.inl (by rw [runPatcher_found hb]; exact ⟨rfl, rfl⟩)
  | false => exact Or.inr (by rw [runPatcher_not_found hb]; exact ⟨rfl, rfl⟩)

/-- Claim C7: the console output is fixed per outcome — the four-line
success message (one heading and three bullet facts) exactly when the
Pattern was found and the file rewritten, and the two-line warning exactly
otherwise. -/
theorem patch_console_output (c : List Char) :
    ((runPatcher c).consoleLines = successLines ↔ (runPatcher c).written = true) ∧
    ((runPatcher c).consoleLines = failureLines ↔ (runPatcher c).written = false) ∧
    ((runPatcher c).written = true ↔ occursIn old_sensor_logic c = true) ∧
    successLines.length = 4 ∧ (successLines.drop 1).length = 3 ∧
    failureLines.length = 2 := by
  have hdiff : successLines ≠ failureLines := by decide
  have hdiff2 : failureLines ≠ successLines := by decide
  cases hb : occursIn old_sensor_logic c with
  | true =>
    rw [runPatcher_found hb]
    exact ⟨by simp, by simp [hdiff], by simp, rfl, rfl, rfl⟩
  | false =>
    rw [runPatcher_not_found hb]
    exact ⟨by simp [hdiff2], by simp, by simp, rfl, rfl, rfl⟩

theorem patch_console_output_app : successLines.length = 4 :=
  (patch_console_output []).2.2.2.1

/-- Claim C8: for every SourceText in which the Pattern occurs n ≥ 1 times
(`pyCount`, Python non-overlapping left-to-right count), the Patcher
replaces every one of the n occurrences: the output joins the n + 1
Pattern-free segments with n copies of the Replacement, and no occurrence
of the Pattern is left. -/
theorem patch_replace_all_count (s : List Char)
    (h : occursIn old_sensor_logic s = true) :
    1 ≤ pyCount old_sensor_logic s ∧
    (pySplit old_sensor_logic s).length = pyCount old_sensor_logic s + 1 ∧
    (runPatcher s).fileContent = joinSep new_sensor_logic (pySplit old_sensor_logic s) ∧
    occursIn old_sensor_logic ((runPatcher s).fileContent) = false := by
  refine ⟨pyCount_pos old_ne_nil h, pySplit_length _ old_ne_nil s, ?_, ?_⟩
  · rw [runPatcher_content s]
    exact pyReplace_eq_joinSep _ _ old_ne_nil s
  · rw [runPatcher_content s]
    exact no_pattern_after_patch s

theorem patch_replace_all_count_app :
    1 ≤ pyCount old_sensor_logic (old_sensor_logic ++ old_sensor_logic) ∧
    (pySplit old_sensor_logic (old_sensor_logic ++ old_sensor_logic)).length =
      pyCount old_sensor_logic (old_sensor_logic ++ old_sensor_logic) + 1 ∧
    (runPatcher (old_sensor_logic ++ old_sensor_logic)).fileContent =
      joinSep new_sensor_logic
        (pySplit old_sensor_logic (old_sensor_logic ++ old_sensor_logic)) ∧
    occursIn old_sensor_logic
      ((runPatcher (old_sensor_logic ++ old_sensor_logic)).fileContent) = false :=
  patch_replace_all_count (old_sensor_logic ++ old_sensor_logic) (by decide)

/-- Claim C9: the Pattern does not occur as a substring of the Replacement,
and consequently patching a SourceText consisting of the Pattern yields
the Replacement with no occurrence of the Pattern introduced. -/
theorem replacement_free_of_pattern :
    occursIn old_sensor_logic new_sensor_logic = false ∧
    (runPatcher old_sensor_logic).fileContent = new_sensor_logic ∧
    occursIn old_sensor_logic ((runPatcher old_sensor_logic).fileContent) = false := by
  have hfc : (runPatcher old_sensor_logic).fileContent = new_sensor_logic := by
    rw [runPatcher_content, pyReplace_self _ _ old_ne_nil]
  exact ⟨old_not_in_new, hfc, by rw [hfc]; exact old_not_in_new⟩

/-- Claim C10: the script is deterministic — two runs started from equal
file contents produce equal results (same resulting content and same
console lines); the embedding is a pure function of the initial content,
reflecting that the script consumes no randomness, environment variables,
or command-line input. -/
theorem script_deterministic (f1 f2 : Option (List Char)) (h : f1 = f2) :
    runScript f1 = runScript f2 := by
  rw [h]

theorem script_deterministic_app : runScript (some []) = runScript (some []) :=
  script_deterministic (some []) (some []) rfl
